import Mathlib

/-!
Verification of the Dapp Punks NFT minting contract (`contracts/NFT.sol`).

The contract is shallowly embedded as pure functions over a `Ledger` state.
Machine integers (Solidity `uint256`) are modelled as `Nat` with explicit
overflow checks where the source performs checked arithmetic (Solidity
`^0.8.0` reverts on overflow by default).  Accounts and timestamps are `Nat`.
Each externally callable function returns `Except MintError Ledger`
(or a value); an `error` result models a revert, which leaves the chain
state untouched — `applyOp` below makes that rollback explicit.
-/

namespace DappPunks

/-- One past the largest value representable in a Solidity `uint256`. -/
def UINT256 : Nat := 2 ^ 256

/-- Error taxonomy of the ledger.  The first seven correspond to the revert
reasons of the contract and its base contracts; `Overflow` models the
Solidity 0.8 checked-arithmetic panic (also a revert). -/
inductive MintError where
  | MintingNotYetOpen
  | InvalidQuantity
  | InsufficientPayment
  | SupplyExceeded
  | UnknownToken
  | Unauthorized
  | TransferFailed
  | Overflow
  deriving DecidableEq, Repr

/-- Notifications emitted by successful state changes: `event Mint(uint256
amount, address minter)` and `event Withdraw(uint256 amount, address owner)`. -/
inductive Event where
  | Mint (amount : Nat) (minter : Nat)
  | Withdraw (amount : Nat) (owner : Nat)
  deriving DecidableEq, Repr

/-- Contract state.  `tokens` is the issuance-ordered list of
`(token id, owner account)` pairs; it models the inherited
ERC721Enumerable bookkeeping (an id-to-owner mapping plus per-owner
ordered id lists).  Modelled from the spec: the enumerable base contract
is not in the sources; the spec describes it as an id-to-owner mapping
plus an owner-to-ordered-id-list mapping kept consistent under issuance,
with a new token appended at the end of its owner's list.  Since the
operations here never transfer tokens, one issuance-ordered list carries
both views: an owner's enumeration list is the subsequence of `tokens`
owned by that account.  `balance` is the contract's held funds; `events`
the append-only notification log. -/
structure Ledger where
  name : String
  symbol : String
  baseURI : String
  baseExtension : String
  cost : Nat
  maxSupply : Nat
  allowMintingOn : Nat
  ownerAccount : Nat
  tokens : List (Nat × Nat)
  balance : Nat
  events : List Event
  deriving DecidableEq, Repr

/-- The constructor: fields from the six arguments, `baseExtension`
initialized to `".json"`, deployer becomes owner (`Ownable`), no tokens,
no funds, no events. -/
def deploy (name symbol : String) (cost maxSupply allowMintingOn : Nat)
    (baseURI : String) (deployer : Nat) : Ledger :=
  { name := name
    symbol := symbol
    baseURI := baseURI
    baseExtension := ".json"
    cost := cost
    maxSupply := maxSupply
    allowMintingOn := allowMintingOn
    ownerAccount := deployer
    tokens := []
    balance := 0
    events := [] }

/-- `totalSupply()` of the enumerable base: number of tokens issued. -/
def totalSupply (s : Ledger) : Nat := s.tokens.length

/-- The tokens freshly issued by a successful `mint(q)` call: ids
`supply + 1 .. supply + q` in increasing order, each owned by the caller
(the loop `for i in 1..=q { _safeMint(msg.sender, supply + i) }`). -/
def newTokens (supply q caller : Nat) : List (Nat × Nat) :=
  (List.range q).map (fun i => (supply + i + 1, caller))

/-- `mint(uint256 _mintAmount)`: the four `require` checks in source
order — time gate, positive quantity, payment, supply cap — then the
issuance loop, balance credit (`msg.value`), and the `Mint` event.
`cost * q` and `supply + q` are Solidity checked arithmetic: exceeding
`uint256` is a panic revert, modelled as `MintError.Overflow`. -/
def mint (q pay t caller : Nat) (s : Ledger) : Except MintError Ledger :=
  if t < s.allowMintingOn then .error .MintingNotYetOpen
  else if q = 0 then .error .InvalidQuantity
  else if UINT256 ≤ s.cost * q then .error .Overflow
  else if pay < s.cost * q then .error .InsufficientPayment
  else if UINT256 ≤ s.tokens.length + q then .error .Overflow
  else if s.maxSupply < s.tokens.length + q then .error .SupplyExceeded
  else .ok { s with
    tokens := s.tokens ++ newTokens s.tokens.length q caller
    balance := s.balance + pay
    events := s.events ++ [Event.Mint q caller] }

/-- `_exists(_tokenId)` of the base contract.  Modelled from the spec:
the base ERC721 is not in the sources; a token exists exactly when some
issued token carries that id. -/
def tokenExists (id : Nat) (s : Ledger) : Bool :=
  s.tokens.any (fun p => p.1 == id)

/-- `tokenURI(uint256 _tokenId)`: requires the token to exist
(`'Token does not exist'`, modelled as `UnknownToken`), then returns the
concatenation `baseURI ++ decimal id ++ baseExtension`.  Read-only. -/
def tokenURI (id : Nat) (s : Ledger) : Except MintError String :=
  if tokenExists id s then
    .ok (s.baseURI ++ toString id ++ s.baseExtension)
  else .error .UnknownToken

/-- `walletOfOwner(address _owner)`: reads `balanceOf(_owner)` entries
via `tokenOfOwnerByIndex(_owner, i)` for `i` below the balance.
Modelled from the spec: the enumerable base is not in the sources; under
issuance-only history the owner's enumeration list is the subsequence of
the issuance list owned by that account, so the indexed reads return
exactly that subsequence in order. -/
def walletOfOwner (owner : Nat) (s : Ledger) : List Nat :=
  (s.tokens.filter (fun p => p.2 == owner)).map (fun p => p.1)

/-- `withdraw()`: the `onlyOwner` modifier (modelled from the spec:
`Ownable` is not in the sources; it requires the caller to be the owner,
else reverts, modelled as `Unauthorized`), then sends the whole contract
balance to the caller via `call`; if that transfer is rejected the call
reverts (`'Withdrawal failed'`, modelled as `TransferFailed`), otherwise
the balance is zeroed and a `Withdraw` event is emitted.  `transferOk`
is the environment's answer to the outbound transfer. -/
def withdraw (transferOk : Bool) (caller : Nat) (s : Ledger) :
    Except MintError Ledger :=
  if caller ≠ s.ownerAccount then .error .Unauthorized
  else if transferOk = false then .error .TransferFailed
  else .ok { s with
    balance := 0
    events := s.events ++ [Event.Withdraw s.balance caller] }

/-- `setCost(uint256 _newCost)`: `onlyOwner`, then unconditionally
replaces `cost` — no validation of the new value. -/
def setCost (newCost caller : Nat) (s : Ledger) : Except MintError Ledger :=
  if caller ≠ s.ownerAccount then .error .Unauthorized
  else .ok { s with cost := newCost }

/-- The externally callable state-changing operations of the contract. -/
inductive Op where
  | mint (q pay t caller : Nat)
  | withdraw (transferOk : Bool) (caller : Nat)
  | setCost (newCost caller : Nat)
  deriving DecidableEq, Repr

/-- Execute one call with EVM revert semantics: a reverting call leaves
the state exactly as it was. -/
def applyOp (s : Ledger) (op : Op) : Ledger :=
  match op with
  | .mint q pay t caller =>
      match mint q pay t caller s with
      | .ok s' => s'
      | .error _ => s
  | .withdraw transferOk caller =>
      match withdraw transferOk caller s with
      | .ok s' => s'
      | .error _ => s
  | .setCost newCost caller =>
      match setCost newCost caller s with
      | .ok s' => s'
      | .error _ => s

/-- Execute a sequence of calls in order. -/
def run (s : Ledger) (ops : List Op) : Ledger :=
  ops.foldl applyOp s

/-- A sample deployment used by concrete witnesses: cost 10, max supply
25, minting opens at time 100, deployed by account 1. -/
def sample : Ledger :=
  deploy "Dapp Punks" "DP" 10 25 100 "ipfs://QmQ2/" 1

/-! ### Helper lemmas -/

/-- Characterization of a successful `mint` call: all four checks pass,
the checked arithmetic stays in range, and the result state is the input
with the new tokens appended, the payment credited and the event logged. -/
theorem mint_eq_ok_iff (q pay t caller : Nat) (s s' : Ledger) :
    mint q pay t caller s = .ok s' ↔
      s.allowMintingOn ≤ t ∧ 0 < q ∧ s.cost * q < UINT256 ∧
      s.cost * q ≤ pay ∧ s.tokens.length + q < UINT256 ∧
      s.tokens.length + q ≤ s.maxSupply ∧
      s' = { s with
        tokens := s.tokens ++ newTokens s.tokens.length q caller
        balance := s.balance + pay
        events := s.events ++ [Event.Mint q caller] } := by
  unfold mint
  split_ifs with h1 h2 h3 h4 h5 h6
  · exact ⟨fun h => h.elim, fun h => absurd h.1 (by omega)⟩
  · exact ⟨fun h => h.elim, fun h => absurd h.2.1 (by omega)⟩
  · exact ⟨fun h => h.elim,
      fun h => absurd h.2.2.1 (by omega)⟩
  · exact ⟨fun h => h.elim,
      fun h => absurd h.2.2.2.1 (by omega)⟩
  · exact ⟨fun h => h.elim,
      fun h => absurd h.2.2.2.2.1 (by omega)⟩
  · exact ⟨fun h => h.elim,
      fun h => absurd h.2.2.2.2.2.1 (by omega)⟩
  · constructor
    · intro h
      exact ⟨by omega, by omega, by omega, by omega, by omega, by omega,
        (Except.ok.inj h).symm⟩
    · intro h
      rw [h.2.2.2.2.2.2]

/-- Characterization of a successful `withdraw` call. -/
theorem withdraw_eq_ok_iff (transferOk : Bool) (caller : Nat)
    (s s' : Ledger) :
    withdraw transferOk caller s = .ok s' ↔
      caller = s.ownerAccount ∧ transferOk = true ∧
      s' = { s with
        balance := 0
        events := s.events ++ [Event.Withdraw s.balance caller] } := by
  unfold withdraw
  split_ifs with h1 h2
  · exact ⟨fun h => h.elim, fun h => absurd h.1 h1⟩
  · refine ⟨fun h => h.elim, fun h => ?_⟩
    rw [h.2.1] at h2
    exact Bool.noConfusion h2
  · constructor
    · intro h
      refine ⟨not_not.mp h1, ?_, (Except.ok.inj h).symm⟩
      revert h2
      cases transferOk <;> simp
    · intro h
      rw [h.2.2]

/-- Characterization of a successful `setCost` call. -/
theorem setCost_eq_ok_iff (newCost caller : Nat) (s s' : Ledger) :
    setCost newCost caller s = .ok s' ↔
      caller = s.ownerAccount ∧ s' = { s with cost := newCost } := by
  unfold setCost
  split_ifs with h1
  · exact ⟨fun h => h.elim, fun h => absurd h.1 h1⟩
  · exact ⟨fun h => ⟨not_not.mp h1, (Except.ok.inj h).symm⟩,
      fun h => by rw [h.2]⟩

/-- A reverting `mint` leaves the state unchanged under `applyOp`. -/
theorem applyOp_mint_error (q pay t caller : Nat) (s : Ledger)
    (e : MintError) (h : mint q pay t caller s = .error e) :
    applyOp s (.mint q pay t caller) = s := by
  simp [applyOp, h]

/-- A reverting `withdraw` leaves the state unchanged under `applyOp`. -/
theorem applyOp_withdraw_error (transferOk : Bool) (caller : Nat)
    (s : Ledger) (e : MintError)
    (h : withdraw transferOk caller s = .error e) :
    applyOp s (.withdraw transferOk caller) = s := by
  simp [applyOp, h]

/-- A reverting `setCost` leaves the state unchanged under `applyOp`. -/
theorem applyOp_setCost_error (newCost caller : Nat) (s : Ledger)
    (e : MintError) (h : setCost newCost caller s = .error e) :
    applyOp s (.setCost newCost caller) = s := by
  simp [applyOp, h]

/-- No operation changes the collection parameters (`maxSupply`,
`allowMintingOn`, `ownerAccount`, URI pieces, name, symbol). -/
theorem applyOp_params (s : Ledger) (op : Op) :
    (applyOp s op).maxSupply = s.maxSupply ∧
    (applyOp s op).allowMintingOn = s.allowMintingOn ∧
    (applyOp s op).ownerAccount = s.ownerAccount ∧
    (applyOp s op).baseURI = s.baseURI ∧
    (applyOp s op).baseExtension = s.baseExtension ∧
    (applyOp s op).name = s.name ∧
    (applyOp s op).symbol = s.symbol := by
  cases op with
  | mint q pay t caller =>
      cases h : mint q pay t caller s with
      | ok s' =>
          obtain ⟨-, -, -, -, -, -, rfl⟩ :=
            (mint_eq_ok_iff q pay t caller s s').mp h
          simp [applyOp, h]
      | error e => simp [applyOp, h]
  | withdraw transferOk caller =>
      cases h : withdraw transferOk caller s with
      | ok s' =>
          obtain ⟨-, -, rfl⟩ :=
            (withdraw_eq_ok_iff transferOk caller s s').mp h
          simp [applyOp, h]
      | error e => simp [applyOp, h]
  | setCost newCost caller =>
      cases h : setCost newCost caller s with
      | ok s' =>
          obtain ⟨-, rfl⟩ := (setCost_eq_ok_iff newCost caller s s').mp h
          simp [applyOp, h]
      | error e => simp [applyOp, h]

/-- Invariants preserved by single calls are preserved by call
sequences. -/
theorem run_preserves (P : Ledger → Prop)
    (hstep : ∀ s op, P s → P (applyOp s op)) :
    ∀ ops s, P s → P (run s ops) := by
  intro ops
  induction ops with
  | nil => intro s h; exact h
  | cons op ops ih =>
      intro s h
      exact ih (applyOp s op) (hstep s op h)

/-- Call sequences never change the collection parameters. -/
theorem run_params (ops : List Op) (s : Ledger) :
    (run s ops).maxSupply = s.maxSupply ∧
    (run s ops).allowMintingOn = s.allowMintingOn ∧
    (run s ops).ownerAccount = s.ownerAccount := by
  induction ops generalizing s with
  | nil => exact ⟨rfl, rfl, rfl⟩
  | cons op ops ih =>
      have h := applyOp_params s op
      have h' := ih (applyOp s op)
      exact ⟨h'.1.trans h.1, h'.2.1.trans h.2.1, h'.2.2.trans h.2.2.1⟩

/-- One call preserves the supply bound `totalSupply ≤ maxSupply`. -/
theorem applyOp_supply_bound (s : Ledger) (op : Op)
    (h : s.tokens.length ≤ s.maxSupply) :
    (applyOp s op).tokens.length ≤ (applyOp s op).maxSupply := by
  cases op with
  | mint q pay t caller =>
      cases hm : mint q pay t caller s with
      | ok s' =>
          obtain ⟨-, -, -, -, -, hsup, rfl⟩ :=
            (mint_eq_ok_iff q pay t caller s s').mp hm
          simp only [applyOp, hm]
          simpa [newTokens] using hsup
      | error e => simpa [applyOp, hm] using h
  | withdraw transferOk caller =>
      cases hw : withdraw transferOk caller s with
      | ok s' =>
          obtain ⟨-, -, rfl⟩ :=
            (withdraw_eq_ok_iff transferOk caller s s').mp hw
          simpa [applyOp, hw] using h
      | error e => simpa [applyOp, hw] using h
  | setCost newCost caller =>
      cases hc : setCost newCost caller s with
      | ok s' =>
          obtain ⟨-, rfl⟩ := (setCost_eq_ok_iff newCost caller s s').mp hc
          simpa [applyOp, hc] using h
      | error e => simpa [applyOp, hc] using h

/-- The issued ids read in issuance order are exactly `1, 2, ...,
totalSupply`. -/
def idsSequential (s : Ledger) : Prop :=
  s.tokens.map Prod.fst = List.range' 1 s.tokens.length

/-- The fresh ids of one mint continue the sequence: they are
`supply + 1 .. supply + q`. -/
theorem newTokens_ids (supply q caller : Nat) :
    (newTokens supply q caller).map Prod.fst = List.range' (supply + 1) q := by
  simp only [newTokens, List.map_map, List.range'_eq_map_range]
  refine List.map_congr_left ?_
  intro i _
  simp [Function.comp]
  omega

/-- One call preserves sequential id assignment. -/
theorem applyOp_idsSequential (s : Ledger) (op : Op)
    (h : idsSequential s) : idsSequential (applyOp s op) := by
  cases op with
  | mint q pay t caller =>
      cases hm : mint q pay t caller s with
      | ok s' =>
          obtain ⟨-, -, -, -, -, -, rfl⟩ :=
            (mint_eq_ok_iff q pay t caller s s').mp hm
          unfold idsSequential at h ⊢
          simp only [applyOp, hm, List.map_append, h, newTokens_ids,
            List.length_append]
          have hlen : (newTokens s.tokens.length q caller).length = q := by
            simp [newTokens]
          rw [hlen]
          have h2 := List.range'_append_1 1 s.tokens.length q
          rw [Nat.add_comm 1 s.tokens.length, Nat.add_comm q s.tokens.length]
            at h2
          exact h2
      | error e => simpa [applyOp, hm] using h
  | withdraw transferOk caller =>
      cases hw : withdraw transferOk caller s with
      | ok s' =>
          obtain ⟨-, -, rfl⟩ :=
            (withdraw_eq_ok_iff transferOk caller s s').mp hw
          simpa [applyOp, hw, idsSequential] using h
      | error e => simpa [applyOp, hw] using h
  | setCost newCost caller =>
      cases hc : setCost newCost caller s with
      | ok s' =>
          obtain ⟨-, rfl⟩ := (setCost_eq_ok_iff newCost caller s s').mp hc
          simpa [applyOp, hc, idsSequential] using h
      | error e => simpa [applyOp, hc] using h

/-- Any state reached from a deployment has `totalSupply ≤ maxSupply`. -/
theorem run_deploy_supply_bound (name symbol : String)
    (cost maxSupply allowMintingOn : Nat) (baseURI : String)
    (deployer : Nat) (ops : List Op) :
    (run (deploy name symbol cost maxSupply allowMintingOn baseURI deployer)
        ops).tokens.length ≤ maxSupply := by
  have h :
      (run (deploy name symbol cost maxSupply allowMintingOn baseURI
        deployer) ops).tokens.length ≤
      (run (deploy name symbol cost maxSupply allowMintingOn baseURI
        deployer) ops).maxSupply :=
    run_preserves (fun s => s.tokens.length ≤ s.maxSupply)
      applyOp_supply_bound ops _ (by simp [deploy])
  have hp := run_params ops
    (deploy name symbol cost maxSupply allowMintingOn baseURI deployer)
  rw [hp.1] at h
  simpa [deploy] using h

/-- Any state reached from a deployment has sequentially assigned ids. -/
theorem run_deploy_idsSequential (name symbol : String)
    (cost maxSupply allowMintingOn : Nat) (baseURI : String)
    (deployer : Nat) (ops : List Op) :
    idsSequential
      (run (deploy name symbol cost maxSupply allowMintingOn baseURI
        deployer) ops) := by
  exact run_preserves idsSequential applyOp_idsSequential ops _
    (by simp [idsSequential, deploy])

/-- Helper: a mint call that passes the earlier checks but would push the
supply past `maxSupply` fails with `SupplyExceeded`. -/
theorem mint_supply_exceeded (q pay t caller : Nat) (s : Ledger)
    (ht : s.allowMintingOn ≤ t) (hq : 0 < q)
    (hmul : s.cost * q < UINT256) (hpay : s.cost * q ≤ pay)
    (hadd : s.tokens.length + q < UINT256)
    (hover : s.maxSupply < s.tokens.length + q) :
    mint q pay t caller s = .error .SupplyExceeded := by
  unfold mint
  split_ifs with g1 g2 g3 g4 g5 g6 <;> first | rfl | omega

/-! ### Claims -/

/-- C1: Supply bound invariant — along every call sequence from a
deployment, `totalSupply` never exceeds `maxSupply`; a mint call that
passes the preceding checks but whose quantity would push the supply past
`maxSupply` fails with `SupplyExceeded`; and any reverting mint issues
zero tokens, leaving the state (hence `totalIssued`) unchanged. -/
theorem supply_bound_invariant (name symbol : String)
    (cost maxSupply allowMintingOn : Nat) (baseURI : String)
    (deployer : Nat) (ops : List Op) (q pay t caller : Nat) (s : Ledger) :
    (run (deploy name symbol cost maxSupply allowMintingOn baseURI
      deployer) ops).tokens.length ≤ maxSupply ∧
    (s.allowMintingOn ≤ t → 0 < q → s.cost * q < UINT256 →
      s.cost * q ≤ pay → s.tokens.length + q < UINT256 →
      s.maxSupply < s.tokens.length + q →
      mint q pay t caller s = .error .SupplyExceeded) ∧
    (∀ e, mint q pay t caller s = .error e →
      applyOp s (.mint q pay t caller) = s) := by
  refine ⟨run_deploy_supply_bound name symbol cost maxSupply
    allowMintingOn baseURI deployer ops, ?_,
    fun e he => applyOp_mint_error q pay t caller s e he⟩
  intro ht hq hmul hpay hadd hover
  exact mint_supply_exceeded q pay t caller s ht hq hmul hpay hadd hover

/-- Witness for C1 at a concrete deployment: minting 100 on a fresh
ledger with `maxSupply = 25` (payment covering 100 units) fails with
`SupplyExceeded` and leaves the ledger unchanged. -/
theorem supply_bound_invariant_witness :
    (run (deploy "Dapp Punks" "DP" 10 25 100 "ipfs://QmQ2/" 1)
      []).tokens.length ≤ 25 ∧
    mint 100 1000 100 2 sample = .error .SupplyExceeded ∧
    applyOp sample (.mint 100 1000 100 2) = sample := by
  have h := supply_bound_invariant "Dapp Punks" "DP" 10 25 100
    "ipfs://QmQ2/" 1 [] 100 1000 100 2 sample
  refine ⟨h.1, ?_, ?_⟩
  · exact h.2.1 (by decide) (by decide) (by decide) (by decide)
      (by decide) (by decide)
  · exact h.2.2 .SupplyExceeded (h.2.1 (by decide) (by decide) (by decide)
      (by decide) (by decide) (by decide))

/-- C2: Mint success postcondition — a successful `mint` of quantity `q`
appends exactly the tokens with ids `totalSupply_before + 1` through
`totalSupply_before + q`, each owned by the caller, increases the supply
by `q`, credits the payment to the contract balance, and appends one
`Mint (q, caller)` event; consequently every state reached from a
deployment has issued ids exactly `1 .. totalSupply` in increasing
order. -/
theorem mint_success_postcondition (q pay t caller : Nat) (s s' : Ledger)
    (h : mint q pay t caller s = .ok s')
    (name symbol : String) (cost maxSupply allowMintingOn : Nat)
    (baseURI : String) (deployer : Nat) (ops : List Op) :
    s'.tokens = s.tokens ++
      (List.range q).map (fun i => (s.tokens.length + i + 1, caller)) ∧
    s'.tokens.length = s.tokens.length + q ∧
    (∀ i, 0 < i → i ≤ q → (s.tokens.length + i, caller) ∈ s'.tokens) ∧
    s'.balance = s.balance + pay ∧
    s'.events = s.events ++ [Event.Mint q caller] ∧
    (run (deploy name symbol cost maxSupply allowMintingOn baseURI
      deployer) ops).tokens.map Prod.fst =
    List.range' 1 (run (deploy name symbol cost maxSupply allowMintingOn
      baseURI deployer) ops).tokens.length := by
  obtain ⟨-, -, -, -, -, -, rfl⟩ := (mint_eq_ok_iff q pay t caller s s').mp h
  refine ⟨by simp [newTokens], by simp [newTokens], ?_, by simp, by simp,
    run_deploy_idsSequential name symbol cost maxSupply allowMintingOn
      baseURI deployer ops⟩
  intro i hi hiq
  simp only [newTokens]
  refine List.mem_append_right _ (List.mem_map.mpr ⟨i - 1, ?_, ?_⟩)
  · exact List.mem_range.mpr (by omega)
  · show (s.tokens.length + (i - 1) + 1, caller) = (s.tokens.length + i, caller)
    have hi1 : s.tokens.length + (i - 1) + 1 = s.tokens.length + i := by
      omega
    rw [hi1]

/-- Witness for C2: minting quantity 2 with payment 20 at time 100 on the
sample ledger yields supply 2, balance 20, token 2 owned by the minter,
and a `Mint (2, 7)` event. -/
theorem mint_success_postcondition_witness :
    (applyOp sample (.mint 2 20 100 7)).tokens.length =
      sample.tokens.length + 2 ∧
    ((sample.tokens.length + 2, 7) ∈
      (applyOp sample (.mint 2 20 100 7)).tokens) ∧
    (applyOp sample (.mint 2 20 100 7)).balance = sample.balance + 20 ∧
    (applyOp sample (.mint 2 20 100 7)).events =
      sample.events ++ [Event.Mint 2 7] := by
  have h := mint_success_postcondition 2 20 100 7 sample
    (applyOp sample (.mint 2 20 100 7)) (by rfl)
    "Dapp Punks" "DP" 10 25 100 "ipfs://QmQ2/" 1 []
  exact ⟨h.2.1, h.2.2.1 2 (by decide) (by decide), h.2.2.2.1, h.2.2.2.2.1⟩

/-- C3: Mint precondition order and atomicity — provided the two checked
multiplications and additions stay within `uint256`, the error returned
by `mint` is exactly the first failing condition in the order time gate,
quantity, payment, supply; and a reverting mint leaves the whole ledger
state unchanged. -/
theorem mint_error_order (q pay t caller : Nat) (s : Ledger)
    (hmul : s.cost * q < UINT256)
    (hadd : s.tokens.length + q < UINT256) :
    (mint q pay t caller s = .error .MintingNotYetOpen ↔
      t < s.allowMintingOn) ∧
    (mint q pay t caller s = .error .InvalidQuantity ↔
      s.allowMintingOn ≤ t ∧ q = 0) ∧
    (mint q pay t caller s = .error .InsufficientPayment ↔
      s.allowMintingOn ≤ t ∧ 0 < q ∧ pay < s.cost * q) ∧
    (mint q pay t caller s = .error .SupplyExceeded ↔
      s.allowMintingOn ≤ t ∧ 0 < q ∧ s.cost * q ≤ pay ∧
      s.maxSupply < s.tokens.length + q) ∧
    (∀ e, mint q pay t caller s = .error e →
      applyOp s (.mint q pay t caller) = s) := by
  refine ⟨?_, ?_, ?_, ?_,
      fun e he => applyOp_mint_error q pay t caller s e he⟩ <;>
    (unfold mint; split_ifs with g1 g2 g3 g4 g5 g6 <;> simp <;> omega)

/-- Witness for C3 on the sample ledger: before the opening time the
time-gate error wins even though the payment is also insufficient. -/
theorem mint_error_order_witness :
    mint 1 5 0 2 sample = .error .MintingNotYetOpen := by
  exact ((mint_error_order 1 5 0 2 sample (by decide) (by decide)).1).mpr
    (by decide)

/-- C4 counterexample: a mint call with insufficient payment made before
`mintOpensAt` fails with `MintingNotYetOpen`, not `InsufficientPayment`,
so the payment-floor error is not independent of time. -/
theorem payment_floor_counterexample :
    5 < sample.cost * 1 ∧ 0 < sample.allowMintingOn ∧
    mint 1 5 0 2 sample = .error .MintingNotYetOpen ∧
    MintError.MintingNotYetOpen ≠ MintError.InsufficientPayment := by
  refine ⟨by decide, by decide, by rfl, by decide⟩

/-- C4 (amended): a mint call at a time at or after `mintOpensAt` with
`paymentAmount < unitCost * quantity` (the product within `uint256`)
always fails with `InsufficientPayment`, regardless of the quantity. -/
theorem payment_floor (q pay t caller : Nat) (s : Ledger)
    (ht : s.allowMintingOn ≤ t) (hmul : s.cost * q < UINT256)
    (hp : pay < s.cost * q) :
    mint q pay t caller s = .error .InsufficientPayment := by
  unfold mint
  split_ifs with g1 g2 g3 g4 g5 g6 <;>
    first
      | rfl
      | omega
      | (rw [g2, Nat.mul_zero] at hp; omega)

/-- Witness for the amended C4: paying 5 for one token of cost 10 at the
opening time fails with `InsufficientPayment`. -/
theorem payment_floor_witness :
    mint 1 5 100 2 sample = .error .InsufficientPayment :=
  payment_floor 1 5 100 2 sample (by decide) (by decide) (by decide)

/-- Helper: under sequential id assignment a token exists exactly when
its id lies in `1 .. totalSupply`. -/
theorem tokenExists_iff (id : Nat) (s : Ledger) (hseq : idsSequential s) :
    tokenExists id s = true ↔ 1 ≤ id ∧ id ≤ s.tokens.length := by
  unfold tokenExists
  rw [List.any_eq_true]
  constructor
  · rintro ⟨p, hp, he⟩
    have hm : p.1 ∈ s.tokens.map Prod.fst := List.mem_map_of_mem _ hp
    rw [hseq, List.mem_range'_1] at hm
    have hpe := beq_iff_eq.mp he
    omega
  · rintro ⟨h1, h2⟩
    have hm : id ∈ s.tokens.map Prod.fst := by
      rw [hseq, List.mem_range'_1]
      omega
    obtain ⟨p, hp, hpe⟩ := List.mem_map.mp hm
    exact ⟨p, hp, beq_iff_eq.mpr hpe⟩

/-- C5: Metadata URI correctness — on any ledger with sequential id
assignment (every state reachable from a deployment), `tokenURI id`
fails with `UnknownToken` exactly when `id < 1` or `id > totalSupply`,
and for every issued id returns the concatenation of `baseURI`, the
decimal representation of the id, and `baseExtension`. -/
theorem tokenURI_correct (id : Nat) (s : Ledger)
    (hseq : idsSequential s) :
    (tokenURI id s = .error .UnknownToken ↔
      id < 1 ∨ s.tokens.length < id) ∧
    (1 ≤ id → id ≤ s.tokens.length →
      tokenURI id s = .ok (s.baseURI ++ toString id ++ s.baseExtension)) := by
  have hex := tokenExists_iff id s hseq
  unfold tokenURI
  by_cases h : tokenExists id s = true
  · rw [if_pos h]
    rw [hex] at h
    refine ⟨⟨fun he => absurd he (by simp), fun hr => absurd hr (by omega)⟩,
      fun _ _ => rfl⟩
  · rw [if_neg h]
    rw [hex] at h
    refine ⟨⟨fun _ => by omega, fun _ => rfl⟩, fun h1 h2 => ?_⟩
    exact absurd ⟨h1, h2⟩ h

/-- Witness for C5 after one mint on the sample ledger: token 1 resolves
to `"ipfs://QmQ2/1.json"` and the unissued id 5 fails with
`UnknownToken`. -/
theorem tokenURI_correct_witness :
    tokenURI 1 (applyOp sample (.mint 1 10 100 2)) =
      .ok ((applyOp sample (.mint 1 10 100 2)).baseURI ++ toString 1 ++
        (applyOp sample (.mint 1 10 100 2)).baseExtension) ∧
    tokenURI 5 (applyOp sample (.mint 1 10 100 2)) =
      .error .UnknownToken := by
  constructor
  · exact (tokenURI_correct 1 (applyOp sample (.mint 1 10 100 2))
      (by unfold idsSequential; decide)).2 (by decide) (by decide)
  · exact (tokenURI_correct 5 (applyOp sample (.mint 1 10 100 2))
      (by unfold idsSequential; decide)).1.mpr (by decide)

/-- C6: Withdraw semantics — a non-owner caller gets `Unauthorized` and
the state is untouched; the owner with an accepted transfer gets the
entire balance paid out (`Withdraw (balance, owner)` event) and the
contract balance set to 0; the owner with a rejected transfer gets
`TransferFailed` and the balance (indeed the whole state) is
unchanged. -/
theorem withdraw_correct (transferOk : Bool) (caller : Nat) (s : Ledger) :
    (caller ≠ s.ownerAccount →
      withdraw transferOk caller s = .error .Unauthorized ∧
      applyOp s (.withdraw transferOk caller) = s) ∧
    (caller = s.ownerAccount → transferOk = true →
      withdraw transferOk caller s = .ok { s with
        balance := 0
        events := s.events ++ [Event.Withdraw s.balance caller] }) ∧
    (caller = s.ownerAccount → transferOk = false →
      withdraw transferOk caller s = .error .TransferFailed ∧
      applyOp s (.withdraw transferOk caller) = s ∧
      (applyOp s (.withdraw transferOk caller)).balance = s.balance) := by
  refine ⟨fun hne => ?_, fun heq htr => ?_, fun heq htr => ?_⟩
  · have hw : withdraw transferOk caller s = .error .Unauthorized := by
      unfold withdraw
      rw [if_pos hne]
    exact ⟨hw, applyOp_withdraw_error transferOk caller s _ hw⟩
  · exact (withdraw_eq_ok_iff transferOk caller s _).mpr ⟨heq, htr, rfl⟩
  · have hw : withdraw transferOk caller s = .error .TransferFailed := by
      unfold withdraw
      rw [if_neg (by simp [heq]), if_pos htr]
    have ha := applyOp_withdraw_error transferOk caller s _ hw
    exact ⟨hw, ha, by rw [ha]⟩

/-- Witness for C6 on the sample ledger after one paid mint: a non-owner
withdrawal fails `Unauthorized` leaving the balance at 10; the owner
withdrawal zeroes the balance and logs `Withdraw (10, 1)`; a rejected
transfer fails `TransferFailed` with the balance still 10. -/
theorem withdraw_correct_witness :
    withdraw true 2 (applyOp sample (.mint 1 10 100 2)) =
      .error .Unauthorized ∧
    applyOp (applyOp sample (.mint 1 10 100 2)) (.withdraw true 2) =
      applyOp sample (.mint 1 10 100 2) ∧
    withdraw true 1 (applyOp sample (.mint 1 10 100 2)) =
      .ok { applyOp sample (.mint 1 10 100 2) with
        balance := 0
        events := (applyOp sample (.mint 1 10 100 2)).events ++
          [Event.Withdraw (applyOp sample (.mint 1 10 100 2)).balance 1] } ∧
    withdraw false 1 (applyOp sample (.mint 1 10 100 2)) =
      .error .TransferFailed ∧
    (applyOp (applyOp sample (.mint 1 10 100 2))
      (.withdraw false 1)).balance =
      (applyOp sample (.mint 1 10 100 2)).balance := by
  refine ⟨?_, ?_, ?_, ?_, ?_⟩
  · exact ((withdraw_correct true 2 (applyOp sample (.mint 1 10 100 2))).1
      (by decide)).1
  · exact ((withdraw_correct true 2 (applyOp sample (.mint 1 10 100 2))).1
      (by decide)).2
  · exact (withdraw_correct true 1 (applyOp sample
      (.mint 1 10 100 2))).2.1 (by decide) rfl
  · exact ((withdraw_correct false 1 (applyOp sample
      (.mint 1 10 100 2))).2.2 (by decide) rfl).1
  · exact ((withdraw_correct false 1 (applyOp sample
      (.mint 1 10 100 2))).2.2 (by decide) rfl).2.2

/-- C7: Owner-only price mutation — `setCost` (and `withdraw`) called by
a non-owner fails with `Unauthorized` and leaves the whole state (in
particular `cost` and `balance`) unchanged; called by the owner,
`setCost` replaces `cost` with the new value unconditionally, any value
including zero. -/
theorem setCost_access_control (newCost caller : Nat) (s : Ledger) :
    (caller ≠ s.ownerAccount →
      setCost newCost caller s = .error .Unauthorized ∧
      applyOp s (.setCost newCost caller) = s ∧
      (applyOp s (.setCost newCost caller)).cost = s.cost ∧
      (∀ transferOk, withdraw transferOk caller s = .error .Unauthorized ∧
        (applyOp s (.withdraw transferOk caller)).balance = s.balance)) ∧
    (caller = s.ownerAccount →
      setCost newCost caller s = .ok { s with cost := newCost }) := by
  constructor
  · intro hne
    have hc : setCost newCost caller s = .error .Unauthorized := by
      unfold setCost
      rw [if_pos hne]
    have ha := applyOp_setCost_error newCost caller s _ hc
    refine ⟨hc, ha, by rw [ha], fun transferOk => ?_⟩
    have hw : withdraw transferOk caller s = .error .Unauthorized := by
      unfold withdraw
      rw [if_pos hne]
    exact ⟨hw, by rw [applyOp_withdraw_error transferOk caller s _ hw]⟩
  · intro heq
    exact (setCost_eq_ok_iff newCost caller s _).mpr ⟨heq, rfl⟩

/-- Witness for C7 on the sample ledger: account 2 cannot change the
cost (error `Unauthorized`, cost still 10), while the owner can set the
cost to 0. -/
theorem setCost_access_control_witness :
    setCost 0 2 sample = .error .Unauthorized ∧
    (applyOp sample (.setCost 0 2)).cost = sample.cost ∧
    withdraw true 2 sample = .error .Unauthorized ∧
    setCost 0 1 sample = .ok { sample with cost := 0 } := by
  refine ⟨?_, ?_, ?_, ?_⟩
  · exact ((setCost_access_control 0 2 sample).1 (by decide)).1
  · exact ((setCost_access_control 0 2 sample).1 (by decide)).2.2.1
  · exact (((setCost_access_control 0 2 sample).1 (by decide)).2.2.2
      true).1
  · exact (setCost_access_control 0 1 sample).2 rfl

/-- Helper: once the caller time has reached the gate, `mint` can never
fail with `MintingNotYetOpen`. -/
theorem mint_ne_notYetOpen (q pay t caller : Nat) (st : Ledger)
    (h : st.allowMintingOn ≤ t) :
    mint q pay t caller st ≠ .error .MintingNotYetOpen := by
  unfold mint
  split_ifs with g1 g2 g3 g4 g5 g6
  · exact absurd g1 (by omega)
  all_goals simp

/-- C8: Time-gate monotonicity — no operation changes `mintOpensAt`
(there is no mutator); every mint attempt with `callerTime <
mintOpensAt` is rejected with `MintingNotYetOpen`; and once a mint call
succeeds at time `t`, no call at any later (non-decreasing) time on any
subsequently reached state can fail with `MintingNotYetOpen`. -/
theorem time_gate_monotonic (q pay t caller : Nat) (s s' : Ledger)
    (hsucc : mint q pay t caller s = .ok s') :
    (∀ st op, (applyOp st op).allowMintingOn = st.allowMintingOn) ∧
    (∀ q0 pay0 t0 a0 (st : Ledger), t0 < st.allowMintingOn →
      mint q0 pay0 t0 a0 st = .error .MintingNotYetOpen) ∧
    (∀ ops t' q2 pay2 a2, t ≤ t' →
      mint q2 pay2 t' a2 (run s' ops) ≠ .error .MintingNotYetOpen) := by
  obtain ⟨hts, -, -, -, -, -, rfl⟩ :=
    (mint_eq_ok_iff q pay t caller s s').mp hsucc
  refine ⟨fun st op => ((applyOp_params st op).2.1), ?_, ?_⟩
  · intro q0 pay0 t0 a0 st h0
    unfold mint
    rw [if_pos h0]
  · intro ops t' q2 pay2 a2 htt
    apply mint_ne_notYetOpen
    have hrun := (run_params ops { s with
      tokens := s.tokens ++ newTokens s.tokens.length q caller
      balance := s.balance + pay
      events := s.events ++ [Event.Mint q caller] }).2.1
    rw [hrun]
    exact le_trans hts htt

/-- Witness for C8: after a successful mint at time 100 on the sample
ledger, a call at time 200 on the resulting state is not rejected by the
time gate. -/
theorem time_gate_monotonic_witness :
    mint 1 10 200 3
      (run ({ sample with
        tokens := sample.tokens ++ newTokens sample.tokens.length 1 2
        balance := sample.balance + 10
        events := sample.events ++ [Event.Mint 1 2] }) []) ≠
      .error .MintingNotYetOpen := by
  exact (time_gate_monotonic 1 10 100 2 sample _ (by rfl)).2.2
    [] 200 1 10 3 (by decide)

/-- C9: Owned-token enumeration — `walletOfOwner account` contains an id
exactly when that token is owned by the account, it is strictly
ascending on any ledger with sequential id assignment, and after one
account mints three tokens into a fresh sample ledger it returns exactly
`[1, 2, 3]`. -/
theorem walletOfOwner_correct (owner : Nat) (s : Ledger) :
    (∀ id, id ∈ walletOfOwner owner s ↔ (id, owner) ∈ s.tokens) ∧
    (idsSequential s → List.Pairwise (· < ·) (walletOfOwner owner s)) ∧
    walletOfOwner 2 (run sample
      [.mint 1 10 100 2, .mint 1 10 100 2, .mint 1 10 100 2]) =
      [1, 2, 3] := by
  refine ⟨?_, ?_, by rfl⟩
  · intro id
    unfold walletOfOwner
    constructor
    · intro hm
      obtain ⟨p, hp, hpe⟩ := List.mem_map.mp hm
      have hf := List.mem_filter.mp hp
      have hown := beq_iff_eq.mp hf.2
      have : p = (id, owner) := by
        obtain ⟨a, b⟩ := p
        simp only [Prod.mk.injEq]
        exact ⟨hpe, hown⟩
      rw [this] at hf
      exact hf.1
    · intro hm
      exact List.mem_map.mpr ⟨(id, owner),
        List.mem_filter.mpr ⟨hm, beq_iff_eq.mpr rfl⟩, rfl⟩
  · intro hseq
    have h1 : List.Pairwise (· < ·) (s.tokens.map Prod.fst) := by
      rw [hseq]
      exact List.pairwise_lt_range' 1 s.tokens.length
    rw [List.pairwise_map] at h1
    unfold walletOfOwner
    rw [List.pairwise_map]
    exact List.Pairwise.filter _ h1

/-- Witness for C9: after three mints by account 2 the wallet lists
`[1, 2, 3]`, the listing is strictly ascending, and id 2 is reported
exactly because token 2 is owned by account 2. -/
theorem walletOfOwner_correct_witness :
    walletOfOwner 2 (run sample
      [.mint 1 10 100 2, .mint 1 10 100 2, .mint 1 10 100 2]) =
      [1, 2, 3] ∧
    List.Pairwise (· < ·) (walletOfOwner 2 (run sample
      [.mint 1 10 100 2, .mint 1 10 100 2, .mint 1 10 100 2])) ∧
    ((2 : Nat) ∈ walletOfOwner 2 (run sample
        [.mint 1 10 100 2, .mint 1 10 100 2, .mint 1 10 100 2]) ↔
      ((2 : Nat), (2 : Nat)) ∈ (run sample
        [.mint 1 10 100 2, .mint 1 10 100 2, .mint 1 10 100 2]).tokens) := by
  refine ⟨(walletOfOwner_correct 2 sample).2.2, ?_, ?_⟩
  · exact (walletOfOwner_correct 2 (run sample
      [.mint 1 10 100 2, .mint 1 10 100 2, .mint 1 10 100 2])).2.1
      (by unfold idsSequential; decide)
  · exact (walletOfOwner_correct 2 (run sample
      [.mint 1 10 100 2, .mint 1 10 100 2, .mint 1 10 100 2])).1 2

/-- C10: No payment-check wraparound — the payment comparison uses the
checked 256-bit product, so whenever `cost * quantity` exceeds the
`uint256` range the mint call reverts (issuing zero tokens, state
unchanged) rather than wrapping; consequently every successful mint
satisfies `paymentAmount ≥ unitCost * quantity` in exact unbounded
arithmetic. -/
theorem checked_mul_no_wraparound (q pay t caller : Nat) (s : Ledger) :
    (UINT256 ≤ s.cost * q →
      (∀ s', mint q pay t caller s ≠ .ok s') ∧
      applyOp s (.mint q pay t caller) = s) ∧
    (∀ s', mint q pay t caller s = .ok s' → s.cost * q ≤ pay) := by
  constructor
  · intro hover
    have hne : ∀ s', mint q pay t caller s ≠ .ok s' := by
      intro s' hok
      obtain ⟨-, -, hlt, -⟩ := (mint_eq_ok_iff q pay t caller s s').mp hok
      omega
    refine ⟨hne, ?_⟩
    cases hm : mint q pay t caller s with
    | ok s' => exact absurd hm (hne s')
    | error e => exact applyOp_mint_error q pay t caller s e hm
  · intro s' hok
    exact ((mint_eq_ok_iff q pay t caller s s').mp hok).2.2.2.1

/-- Witness for C10: with unit cost `2 ^ 255`, minting quantity 4 cannot
succeed for any payment (here 0) and leaves the ledger unchanged; and
the concrete successful sample mint paid at least `cost * quantity`. -/
theorem checked_mul_no_wraparound_witness :
    mint 4 0 100 2 (deploy "N" "S" (2 ^ 255) 25 100 "u" 1) ≠
      .ok (deploy "N" "S" (2 ^ 255) 25 100 "u" 1) ∧
    applyOp (deploy "N" "S" (2 ^ 255) 25 100 "u" 1) (.mint 4 0 100 2) =
      deploy "N" "S" (2 ^ 255) 25 100 "u" 1 ∧
    sample.cost * 1 ≤ 10 := by
  refine ⟨?_, ?_, ?_⟩
  · exact ((checked_mul_no_wraparound 4 0 100 2
      (deploy "N" "S" (2 ^ 255) 25 100 "u" 1)).1 (by decide)).1 _
  · exact ((checked_mul_no_wraparound 4 0 100 2
      (deploy "N" "S" (2 ^ 255) 25 100 "u" 1)).1 (by decide)).2
  · exact (checked_mul_no_wraparound 1 10 100 2 sample).2
      (applyOp sample (.mint 1 10 100 2)) (by rfl)

end DappPunks
